import Mathlib

/-!
Shallow embedding of the point-selection engine of
`mne/transforms/headshape_gui.py` (the `HeadShape` traits object and the
`ControlPanel.picker_callback` pick-to-index translation) and of the channel
bookkeeping in `mne/fiff/channels.py` (`equalize_channels`,
`DropChannelsMixin.drop_channels`).

External collaborators (the decimation routine `decimate_headshape`, the file
reader `read_hsp`, the renderer) are modelled as parameters: the decimation
provider is an explicit function argument `dec : List Pt → Nat → List Pt`,
and the reader's outcome is an `Option (List Pt)` input to `load`.

Traits reactive wiring is flattened into explicit state-passing functions:
assigning a trait runs its change handler synchronously, and the re-entrant
assignment inside `_exclude_changed` collapses (validation is idempotent), so
each handler is modelled by a single state transformer.
-/

/-- A 3-D point with exact coordinates. -/
abbrev Pt := Int × Int × Int

/-- Error taxonomy surfaced by the engine: `RuntimeError("No hsp file
loaded")`, the `TraitError` of an out-of-range assignment to the
`resolution = Range(value=35, low=5, high=50)` trait, and a failing
`read_hsp`. -/
inductive HSErr where
  | notReady
  | invalidResolution
  | loadFailure
deriving DecidableEq, Repr

/-- Sorted insertion keeping duplicates; `sortInt` models Python `sorted`. -/
def insertSorted (x : Int) : List Int → List Int
  | [] => [x]
  | y :: ys => if x ≤ y then x :: y :: ys else y :: insertSorted x ys

/-- Models Python `sorted(l)` on integers. -/
def sortInt (l : List Int) : List Int := l.foldr insertSorted []

/-- Sorted insertion dropping duplicates; `sortDedup` models `sorted(set(l))`. -/
def insertSortedU (x : Int) : List Int → List Int
  | [] => [x]
  | y :: ys =>
    if x < y then x :: y :: ys else if x = y then y :: ys else y :: insertSortedU x ys

/-- Models Python `sorted(set(l))` on integers. -/
def sortDedup (l : List Int) : List Int := l.foldr insertSortedU []

/-- The validation step of `HeadShape._exclude_changed`:
`items = set(self.exclude)`, then every `i` with `i > self.n_points_all`
or `i < 0` is removed, and the survivors are returned sorted.
Note the source uses a strict `i > n_points_all` comparison, so `i = n`
is kept. -/
def validateExclude (n : Nat) (items : List Int) : List Int :=
  (sortDedup items).filter (fun i => !((n : Int) < i || i < 0))

/-- State of the `HeadShape` traits object.  `loaded` models
`hasattr(self, '_cache')`; `cache` and `excludeMap` are the `_cache` and
`_exclude` dictionaries (association lists, the most recent binding first). -/
structure HeadShape where
  loaded : Bool
  hsp_points : List Pt
  resolution : Nat
  exclude : List Int
  cache : List (Nat × List Pt)
  excludeMap : List (Nat × List Int)
  points : List Pt
  ref_points : List Pt
  n_points_all : Nat
deriving DecidableEq, Repr

/-- A fresh `HeadShape()` object: no `_cache` attribute yet, default
resolution 35, all sequence traits empty. -/
def initState : HeadShape :=
  { loaded := false, hsp_points := [], resolution := 35, exclude := [],
    cache := [], excludeMap := [], points := [], ref_points := [],
    n_points_all := 0 }

/-- Log of decimation-provider invocations: (source cloud, resolution). -/
abbrev CallLog := List (List Pt × Nat)

/-- Dictionary lookup with a default, modelling `dict.get(k, d)`. -/
def lookupD (m : List (Nat × List Int)) (k : Nat) (d : List Int) : List Int :=
  match List.lookup k m with
  | some v => v
  | none => d

/-- Core of `HeadShape.get_dec_points` once loaded: return the cached
decimated set for `res`, or invoke the provider once and store the result.
The returned log records the provider invocations made by this call. -/
def getDecTotal (dec : List Pt → Nat → List Pt) (s : HeadShape) (res : Nat) :
    HeadShape × List Pt × CallLog :=
  match List.lookup res s.cache with
  | some pts => (s, pts, [])
  | none =>
    let pts := dec s.hsp_points res
    ({ s with cache := (res, pts) :: s.cache }, pts, [(s.hsp_points, res)])

/-- `HeadShape.get_dec_points`: raises when no hsp file has been loaded. -/
def get_dec_points (dec : List Pt → Nat → List Pt) (s : HeadShape) (res : Nat) :
    Except HSErr (HeadShape × List Pt × CallLog) :=
  if s.loaded then .ok (getDecTotal dec s res) else .error .notReady

/-- The row selection `sel = ones(n); sel[exclude] = False; pts = pts[sel]`:
keep the rows whose position is not listed in `exclude`.  (Faithful for
exclusion lists of in-range row positions, the only regime in which the
engine applies it; numpy raises `IndexError` on an out-of-range index, which
is how the boundary index kept by the validation slip of
`_exclude_changed` would surface downstream.) -/
def applyExclusion (pts : List Pt) (exclude : List Int) : List Pt :=
  (pts.enum.filter (fun ie => !(exclude.contains (ie.1 : Int)))).map Prod.snd

/-- `HeadShape.update_points` (only reachable once loaded): refresh
`n_points_all` and recompute the visible `points`. -/
def update_points (dec : List Pt → Nat → List Pt) (s : HeadShape) :
    HeadShape × CallLog :=
  let r := getDecTotal dec s s.resolution
  let s1 := { r.1 with n_points_all := r.2.1.length }
  let vis := if s1.exclude.isEmpty then r.2.1 else applyExclusion r.2.1 s1.exclude
  ({ s1 with points := vis }, r.2.2)

/-- Body of `HeadShape._exclude_changed` in the loaded state, acting on the
just-assigned `exclude` trait: validate it, store the validated list in
`_exclude` under the current resolution, write it back to the trait, and
recompute the points.  (The re-entrant trait assignment inside the handler
re-runs the handler on an already-validated list, which is a fixed point of
validation, so one pass captures the net effect.) -/
def exclude_changed (dec : List Pt → Nat → List Pt) (s : HeadShape) :
    HeadShape × CallLog :=
  let ex := validateExclude s.n_points_all s.exclude
  update_points dec
    { s with exclude := ex, excludeMap := (s.resolution, ex) :: s.excludeMap }

/-- Assigning the `exclude` trait: the value is stored first; the change
handler then fires only if the value actually changed, and returns silently
(without error and without touching `_cache`/`_exclude`) when no hsp file has
been loaded. -/
def set_exclude (dec : List Pt → Nat → List Pt) (s : HeadShape) (v : List Int) :
    HeadShape × CallLog :=
  if v = s.exclude then ({ s with exclude := v }, [])
  else if s.loaded then exclude_changed dec { s with exclude := v }
  else ({ s with exclude := v }, [])

/-- `HeadShape._exclude_changed` seen as an engine operation: the handler
contains no raise site, so it never produces an error (the `Except` layer
records that fact; compare `get_dec_points`). -/
def set_exclude_op (dec : List Pt → Nat → List Pt) (s : HeadShape)
    (v : List Int) : Except HSErr (HeadShape × CallLog) :=
  .ok (set_exclude dec s v)

/-- `HeadShape.update_base_points` in the loaded state: fetch the stored
exclusion list for the (new) current resolution, assign it to the `exclude`
trait (running its handler), and recompute the points. -/
def update_base_points (dec : List Pt → Nat → List Pt) (s : HeadShape) :
    HeadShape × CallLog :=
  let stored := lookupD s.excludeMap s.resolution []
  let r1 := set_exclude dec s stored
  let r2 := update_points dec r1.1
  (r2.1, r1.2 ++ r2.2)

/-- Assigning an in-range value to the `resolution` trait:
`update_base_points` fires, and returns silently when no hsp file has been
loaded.  (The `Range(low=5, high=50)` bound check the trait performs on
assignment is modelled in `set_resolution_op`; this function is the
post-validation assignment path, and is only ever applied to in-range
values.) -/
def set_resolution (dec : List Pt → Nat → List Pt) (s : HeadShape) (r : Nat) :
    HeadShape × CallLog :=
  if s.loaded then update_base_points dec { s with resolution := r }
  else ({ s with resolution := r }, [])

/-- The full assignment to the `resolution = Range(value=35, low=5,
high=50)` trait: a value outside `[5, 50]` raises `TraitError` before the
trait is set (state unchanged, no handler fires), in the Unloaded state too;
an in-range value is stored and its change handler runs, which itself
contains no raise site. -/
def set_resolution_op (dec : List Pt → Nat → List Pt) (s : HeadShape)
    (r : Nat) : Except HSErr (HeadShape × CallLog) :=
  if 5 ≤ r ∧ r ≤ 50 then .ok (set_resolution dec s r)
  else .error .invalidResolution

/-- Successful branch of `HeadShape.load`: reset `_cache` and `_exclude`,
install the new cloud, then the `hsp_points` change handlers run:
`update_ref_points` (decimate at the fixed reference resolution 10) and
`update_base_points`. -/
def loadOk (dec : List Pt → Nat → List Pt) (s : HeadShape) (new : List Pt) :
    HeadShape × CallLog :=
  let s1 := { s with loaded := true, cache := [], excludeMap := [],
                     hsp_points := new }
  let r1 := getDecTotal dec s1 10
  let s2 := { r1.1 with ref_points := r1.2.1 }
  let r2 := update_base_points dec s2
  (r2.1, r1.2.2 ++ r2.2)

/-- `HeadShape.load`: `read_hsp` runs first; if it raises, the exception
propagates before any attribute of the object has been touched. -/
def load (dec : List Pt → Nat → List Pt) (s : HeadShape)
    (readResult : Option (List Pt)) : (HeadShape × CallLog) × Option HSErr :=
  match readResult with
  | none => ((s, []), some .loadFailure)
  | some pts => (loadOk dec s pts, none)

/-- One step of the translation loop in `ControlPanel.picker_callback`:
`if idx >= e_idx: idx += 1`. -/
def shiftStep (idx e : Int) : Int := if e ≤ idx then idx + 1 else idx

/-- The translation loop of `ControlPanel.picker_callback`: walk the sorted
exclusion list, bumping the candidate by one for each excluded index at or
below it. -/
def shiftIdx (k : Int) (es : List Int) : Int := es.foldl shiftStep k

/-- `ControlPanel.picker_callback` after the renderer lookup: a pick id of
`-1` is a no-op; otherwise translate the visible index through the sorted
exclusion list and append the result to the `exclude` trait (the in-place
append plus the `_exclude_items_changed` duplication hack nets out to
assigning `exclude ++ [idx]`, since validation drops duplicates). -/
def picker_callback (dec : List Pt → Nat → List Pt) (s : HeadShape)
    (point_id : Int) : HeadShape × CallLog :=
  if point_id = -1 then (s, [])
  else
    let idx := shiftIdx point_id (sortInt s.exclude)
    set_exclude dec s (s.exclude ++ [idx])

/-- `HeadShape._get_can_save`: `np.any(self.points)` — true iff some
coordinate of some visible point is nonzero. -/
def can_save (s : HeadShape) : Bool :=
  s.points.any (fun p => !(p.1 = 0 && p.2.1 = 0 && p.2.2 = 0))

/-- `HeadShape._get_n_points`: size of the visible point set. -/
def n_points (s : HeadShape) : Nat := s.points.length

/-- Number of non-excluded decimated indices strictly below `d` (the
spec's characterisation of the pick translation). -/
def countBelow (d : Int) (E : List Int) : Nat :=
  ((Finset.Ico 0 d).filter (fun x => x ∉ E)).card

/-! ### Channel bookkeeping (`mne/fiff/channels.py`) -/

/-- The error raised by `list.index` when a requested channel name is not
present. -/
inductive ChErr where
  | nameNotFound
deriving DecidableEq, Repr

/-- A measurement object as far as `drop_channels` touches it: channel names
(standing for `info` / `ch_names`), the optional `picks` list, the optional
square `_projector`, preloaded channel-major data (`Raw._data` /
`Evoked.data`), and epoch-major data (`Epochs._data`). -/
structure MObj where
  chNames : List String
  picks : Option (List Nat)
  projector : Option (List (List Int))
  data : Option (List (List Int))
  epochsData : Option (List (List (List Int)))
deriving DecidableEq, Repr

/-- Python `list.index(c)`: position of the first occurrence of `c`. -/
def indexOfName (l : List String) (c : String) : Nat :=
  match l with
  | [] => 0
  | a :: l' => if a = c then 0 else indexOfName l' c + 1

/-- Fancy indexing `l[idx]`: the entries of `l` at the positions listed in
`idx`, in that order. -/
def selectIdx {α : Type} (l : List α) (idx : List Nat) : List α :=
  idx.filterMap (fun k => l.get? k)

/-- `idx = np.setdiff1d(np.arange(len(ch_names)), bad_idx)`: the surviving
positions in increasing order. -/
def survivingIdx (names : List String) (dropNames : List String) : List Nat :=
  let badIdx := dropNames.map (indexOfName names)
  (List.range names.length).filter (fun k => !(badIdx.contains k))

/-- Body of `DropChannelsMixin.drop_channels` once every requested name has
been resolved: apply one and the same position selection `idx` to the channel
names, the picks, both axes of the projector, and the channel axis of each
data array.  `pick_info` is external to the two source files; modelled from
the spec: it restricts the channel metadata to the picked channels, i.e. it
is the same index selection applied to the per-channel info, represented here
by `chNames`. -/
def dropCore (inst : MObj) (dropNames : List String) : MObj :=
  let idx := survivingIdx inst.chNames dropNames
  { chNames := selectIdx inst.chNames idx
  , picks := inst.picks.map (fun p => selectIdx p idx)
  , projector := inst.projector.map
      (fun P => (selectIdx P idx).map (fun row => selectIdx row idx))
  , data := inst.data.map (fun d => selectIdx d idx)
  , epochsData := inst.epochsData.map (fun d => d.map (fun ep => selectIdx ep idx)) }

/-- `DropChannelsMixin.drop_channels`: `self.ch_names.index(c)` raises for a
name that is not present, and it does so while building `bad_idx`, before any
attribute of the object has been modified. -/
def drop_channels (inst : MObj) (dropNames : List String) : Except ChErr MObj :=
  if dropNames.all (fun c => inst.chNames.contains c) then
    .ok (dropCore inst dropNames)
  else .error .nameNotFound

/-- Membership in `common_channels`, the intersection of all candidates'
channel-name sets (the `chan_template` seed is itself one of the candidates,
so intersecting with it changes nothing). -/
def inCommon (cands : List MObj) (n : String) : Bool :=
  cands.all (fun c => c.chNames.contains n)

/-- The per-candidate step of `equalize_channels`: drop the channels outside
the common intersection, skipping the call when there is nothing to drop. -/
def equalizeOne (cands : List MObj) (c : MObj) : MObj :=
  let dropThem := c.chNames.filter (fun n => !(inCommon cands n))
  if dropThem.isEmpty then c
  else
    match drop_channels c dropThem with
    | .ok c2 => c2
    | .error _ => c

/-- `equalize_channels`: equalize every candidate against the common
channel-name intersection (operates positionally on the list). -/
def equalize_channels (cands : List MObj) : List MObj :=
  cands.map (equalizeOne cands)

/-! ### Concrete data for witnesses and counterexamples -/

/-- Ten distinct nonzero points. -/
def pts10 : List Pt :=
  [(1,0,0),(2,0,0),(3,0,0),(4,0,0),(5,0,0),(6,0,0),(7,0,0),(8,0,0),(9,0,0),(10,0,0)]

/-- Three distinct nonzero points. -/
def pts3 : List Pt := [(1,1,0),(2,1,0),(3,1,0)]

/-- A stub decimation provider returning ten points at every resolution. -/
def dec10 : List Pt → Nat → List Pt := fun _ _ => pts10

/-- A stub provider whose decimated set has 10 points at resolution 35 and
3 points at every other resolution. -/
def decC7 : List Pt → Nat → List Pt := fun _ r => if r = 35 then pts10 else pts3

/-- A stub provider that decimates every cloud to the single origin point. -/
def decZero : List Pt → Nat → List Pt := fun _ _ => [(0,0,0)]

/-- The loaded state of the §8.5 scenario: decimated set of size 10 at the
default resolution, exclusion set {2, 5}. -/
def s25 : HeadShape :=
  (set_exclude dec10 (loadOk dec10 initState pts10).1 [2, 5]).1

/-- Invariant carried through the reactive chain of a successful load of the
cloud `new`: the state is loaded with `new` installed, every stored exclusion
list is empty, and every cache entry was computed by the provider from `new`,
with a matching entry in the invocation log `lg`. -/
def LoadInv (dec : List Pt → Nat → List Pt) (new : List Pt) (lg : CallLog)
    (s : HeadShape) : Prop :=
  s.hsp_points = new ∧ s.loaded = true ∧
  (∀ ρ, lookupD s.excludeMap ρ [] = []) ∧
  (∀ ρ v, List.lookup ρ s.cache = some v → v = dec new ρ ∧ (new, ρ) ∈ lg)

/-- A concrete three-channel measurement object. -/
def mobjA : MObj :=
  { chNames := ["a", "b", "c"], picks := some [0, 1, 2],
    projector := some [[1, 0, 0], [0, 1, 0], [0, 0, 1]],
    data := some [[1, 2], [3, 4], [5, 6]],
    epochsData := some [[[1], [2], [3]], [[4], [5], [6]]] }

/-- A concrete two-channel measurement object sharing channels a and c. -/
def mobjB : MObj :=
  { chNames := ["c", "a"], picks := some [0, 1],
    projector := some [[1, 0], [0, 1]],
    data := some [[7, 8], [9, 10]],
    epochsData := none }

/-!
### Theorems

One theorem per claim, in claim order, with shared helper lemmas first.
-/

/-- C2: exclusion validation at the upper boundary.  With a decimated set of
size 10, the raw index 10 is out of range (`[0, 10)`), yet the validation of
`_exclude_changed` keeps it, because the source compares with `i >
self.n_points_all` instead of `i >= self.n_points_all`; the deduplication,
sorting, and the dropping of negative and strictly larger indices behave as
specified. -/
theorem validateExclude_keeps_equal_bound :
    validateExclude 10 [10] = [10] ∧
    ¬ (∀ i ∈ validateExclude 10 [10], i < 10) ∧
    validateExclude 10 [11, -1, 3, 3, 2] = [2, 3] := by decide

/-- C7: the per-resolution exclusion memory is destroyed by a resolution
round trip.  With 10 decimated points at resolution 35 and 3 at resolution
40, excluding index 8 at resolution 35, switching to 40 and back to 35
validates the stored list `[8]` against the stale `n_points_all = 3` of
resolution 40 and silently drops it: the stored entry for 35 and the active
exclusion list end up empty. -/
theorem resolution_switch_drops_exclusion :
    (let s0 := (loadOk decC7 initState pts10).1
     let s1 := (set_exclude decC7 s0 [8]).1
     let s2 := (set_resolution decC7 s1 40).1
     let s3 := (set_resolution decC7 s2 35).1
     s1.resolution = 35 ∧ lookupD s1.excludeMap 35 [] = [8] ∧
     s1.n_points_all = 10 ∧ s2.n_points_all = 3 ∧ s3.resolution = 35 ∧
     lookupD s3.excludeMap 35 [] = [] ∧ s3.exclude = []) := by decide

/-- C8: a failing `read_hsp` raises before any attribute assignment in
`load`, so the error is surfaced and the whole prior state — source cloud,
decimation cache, exclusion store — is byte-for-byte the old one, with no
provider invocation. -/
theorem load_failure_atomic (dec : List Pt → Nat → List Pt) (s : HeadShape) :
    load dec s none = ((s, []), some HSErr.loadFailure) ∧
    (load dec s none).1.1.hsp_points = s.hsp_points ∧
    (load dec s none).1.1.cache = s.cache ∧
    (load dec s none).1.1.excludeMap = s.excludeMap ∧
    (load dec s none).1.2 = [] ∧
    (load dec s none).2 = some HSErr.loadFailure :=
  ⟨rfl, rfl, rfl, rfl, rfl, rfl⟩

/-- C3 counterexample: a reachable loaded state whose visible point set is
the single origin point.  `can_save` is `np.any(self.points)`, which is false
on a non-empty all-zero array, refuting “true whenever the visible set
contains at least one point”. -/
theorem can_save_nonempty_counterexample :
    n_points ((load decZero initState (some [(0, 0, 0)])).1.1) = 1 ∧
    can_save ((load decZero initState (some [(0, 0, 0)])).1.1) = false := by
  decide

/-- C3 (amended): `can_save` is true iff some visible point has a nonzero
coordinate; in particular, whenever no visible point is exactly the origin,
it is true exactly when the visible point set is non-empty. -/
theorem can_save_iff_nonempty_of_no_origin (s : HeadShape)
    (h : ((0 : Int), (0 : Int), (0 : Int)) ∉ s.points) :
    (can_save s = true ↔ s.points ≠ []) ∧
    (can_save s = true ↔ ∃ p ∈ s.points, p ≠ ((0 : Int), (0 : Int), (0 : Int))) := by
  have hpt : ∀ a b c : Int,
      ((!(a = 0 && b = 0 && c = 0)) = true) ↔
        ((a, b, c) : Pt) ≠ ((0 : Int), (0 : Int), (0 : Int)) := by
    intro a b c
    simp [Prod.ext_iff]
    tauto
  have hchar : can_save s = true ↔
      ∃ p ∈ s.points, p ≠ ((0 : Int), (0 : Int), (0 : Int)) := by
    unfold can_save
    rw [List.any_eq_true]
    constructor
    · rintro ⟨⟨a, b, c⟩, hp, hpred⟩
      exact ⟨_, hp, (hpt a b c).1 hpred⟩
    · rintro ⟨⟨a, b, c⟩, hp, hpne⟩
      exact ⟨_, hp, (hpt a b c).2 hpne⟩
  constructor
  · rw [hchar]
    constructor
    · rintro ⟨p, hp, _⟩ hnil
      rw [hnil] at hp
      exact (List.not_mem_nil p) hp
    · intro hne
      rcases List.exists_mem_of_ne_nil s.points hne with ⟨p, hp⟩
      exact ⟨p, hp, fun he => h (he ▸ hp)⟩
  · exact hchar



/-- Witness for the amended C3 theorem at the §8.5 state. -/
theorem can_save_iff_nonempty_witness :
    (can_save s25 = true ↔ s25.points ≠ []) ∧
    (can_save s25 = true ↔
      ∃ p ∈ s25.points, p ≠ ((0 : Int), (0 : Int), (0 : Int))) :=
  can_save_iff_nonempty_of_no_origin s25 (by decide)

/-- C4 counterexample: in the Unloaded state, the exclusion and resolution
operations do not fail with `NotReady` — `_exclude_changed` and
`update_base_points` return silently when `_cache` is absent, so the
operations succeed as no-ops (only `get_dec_points` raises). -/
theorem unloaded_silent_counterexample :
    Except.isOk (set_exclude_op dec10 initState [1]) = true ∧
    set_exclude_op dec10 initState [1] ≠ Except.error HSErr.notReady ∧
    Except.isOk (set_resolution_op dec10 initState 20) = true ∧
    get_dec_points dec10 initState 35 = Except.error HSErr.notReady :=
  ⟨rfl, fun h => Except.noConfusion h, rfl, rfl⟩

/-- C4 (amended): before any cloud has been loaded, `getDecimated` fails with
`NotReady` and leaves the state untouched, `setExclusion` is a silent no-op
(no error is raised), and `setResolution` is a silent no-op for an in-range
value while an out-of-range value fails with the resolution trait's range
error (`InvalidResolution`), leaving the state untouched; in every case no
decimation-cache entry and no exclusion-store entry is created. -/
theorem unloaded_guard_amended (dec : List Pt → Nat → List Pt) (s : HeadShape)
    (v : List Int) (r : Nat) (h : s.loaded = false) (hr : 5 ≤ r ∧ r ≤ 50) :
    get_dec_points dec s r = Except.error HSErr.notReady ∧
    set_exclude_op dec s v = Except.ok ({ s with exclude := v }, []) ∧
    set_resolution_op dec s r = Except.ok ({ s with resolution := r }, []) ∧
    (∀ r2 : Nat, r2 < 5 ∨ 50 < r2 →
      set_resolution_op dec s r2 = Except.error HSErr.invalidResolution) ∧
    (set_exclude dec s v).1.cache = s.cache ∧
    (set_exclude dec s v).1.excludeMap = s.excludeMap ∧
    (set_resolution dec s r).1.cache = s.cache ∧
    (set_resolution dec s r).1.excludeMap = s.excludeMap := by
  have hex : set_exclude dec s v = ({ s with exclude := v }, []) := by
    unfold set_exclude
    rw [h]
    split <;> simp
  have hres : set_resolution dec s r = ({ s with resolution := r }, []) := by
    unfold set_resolution
    rw [h]
    simp
  refine ⟨?_, ?_, ?_, ?_, ?_, ?_, ?_, ?_⟩
  · unfold get_dec_points
    rw [h]
    simp
  · unfold set_exclude_op
    rw [hex]
  · unfold set_resolution_op
    rw [if_pos hr, hres]
  · intro r2 hr2
    unfold set_resolution_op
    rw [if_neg (by omega)]
  · rw [hex]
  · rw [hex]
  · rw [hres]
  · rw [hres]

/-- Witness for the amended C4 theorem at the fresh state, with the in-range
resolution 20. -/
theorem unloaded_guard_amended_witness :
    get_dec_points dec10 initState 20 = Except.error HSErr.notReady ∧
    set_exclude_op dec10 initState [1] =
      Except.ok ({ initState with exclude := [1] }, []) ∧
    set_resolution_op dec10 initState 20 =
      Except.ok ({ initState with resolution := 20 }, []) ∧
    (∀ r2 : Nat, r2 < 5 ∨ 50 < r2 →
      set_resolution_op dec10 initState r2 =
        Except.error HSErr.invalidResolution) ∧
    (set_exclude dec10 initState [1]).1.cache = initState.cache ∧
    (set_exclude dec10 initState [1]).1.excludeMap = initState.excludeMap ∧
    (set_resolution dec10 initState 20).1.cache = initState.cache ∧
    (set_resolution dec10 initState 20).1.excludeMap = initState.excludeMap :=
  unloaded_guard_amended dec10 initState [1] 20 rfl (by decide)

/-- C5: cache identity and determinism.  In a loaded state with no cache
entry for `r`, `getDecimated(r)` invokes the provider exactly once, on the
current source cloud, stores the result, and a second call with the same `r`
returns the identical stored sequence with no provider invocation and no
state change. -/
theorem get_dec_points_cache_identity (dec : List Pt → Nat → List Pt)
    (s : HeadShape) (r : Nat) (hl : s.loaded = true)
    (hm : List.lookup r s.cache = none) :
    ∃ s1, get_dec_points dec s r =
        Except.ok (s1, dec s.hsp_points r, [(s.hsp_points, r)]) ∧
      List.lookup r s1.cache = some (dec s.hsp_points r) ∧
      get_dec_points dec s1 r = Except.ok (s1, dec s.hsp_points r, []) ∧
      s1.hsp_points = s.hsp_points := by
  refine ⟨{ s with cache := (r, dec s.hsp_points r) :: s.cache }, ?_, ?_, ?_, rfl⟩
  · unfold get_dec_points getDecTotal
    rw [hl, hm]
    simp
  · simp [List.lookup]
  · unfold get_dec_points getDecTotal
    simp [hl, List.lookup]

/-- Witness for C5 in a freshly loaded state at an uncached resolution. -/
theorem get_dec_points_cache_identity_witness :
    ∃ s1, get_dec_points dec10 (loadOk dec10 initState pts10).1 20 =
        Except.ok (s1, dec10 (loadOk dec10 initState pts10).1.hsp_points 20,
          [((loadOk dec10 initState pts10).1.hsp_points, 20)]) ∧
      List.lookup 20 s1.cache =
        some (dec10 (loadOk dec10 initState pts10).1.hsp_points 20) ∧
      get_dec_points dec10 s1 20 =
        Except.ok (s1, dec10 (loadOk dec10 initState pts10).1.hsp_points 20, []) ∧
      s1.hsp_points = (loadOk dec10 initState pts10).1.hsp_points :=
  get_dec_points_cache_identity dec10 (loadOk dec10 initState pts10).1 20
    (by decide) (by decide)

/-- Unfolding step of the picker translation loop. -/
lemma shiftIdx_cons (k e : Int) (es : List Int) :
    shiftIdx k (e :: es) = shiftIdx (shiftStep k e) es := rfl

/-- If every listed exclusion lies strictly above the candidate, the loop
leaves the candidate unchanged. -/
lemma shiftIdx_all_gt {k : Int} : ∀ {es : List Int},
    (∀ e ∈ es, k < e) → shiftIdx k es = k := by
  intro es
  induction es with
  | nil => intro _; rfl
  | cons e es ih =>
    intro h
    have he : k < e := h e (List.mem_cons_self e es)
    have hstep : shiftStep k e = k := if_neg (not_le.mpr he)
    rw [shiftIdx_cons, hstep]
    exact ih (fun x hx => h x (List.mem_cons_of_mem e hx))

/-- Invariant of the picker translation loop over a strictly sorted
exclusion list: the result is not excluded, the number of exclusions at or
below it equals how far it moved, and it never moves down. -/
lemma shiftIdx_spec : ∀ (es : List Int), List.Pairwise (· < ·) es → ∀ k : Int,
    shiftIdx k es ∉ es ∧
    ((es.filter (fun e => e ≤ shiftIdx k es)).length : Int) = shiftIdx k es - k ∧
    k ≤ shiftIdx k es := by
  intro es
  induction es with
  | nil =>
    intro _ k
    exact ⟨List.not_mem_nil _, by simp [shiftIdx], le_refl k⟩
  | cons e es ih =>
    intro hp k
    rw [List.pairwise_cons] at hp
    obtain ⟨hhead, htail⟩ := hp
    by_cases he : e ≤ k
    · have hstep : shiftStep k e = k + 1 := if_pos he
      rw [shiftIdx_cons, hstep]
      obtain ⟨h1, h2, h3⟩ := ih htail (k + 1)
      have hed : e < shiftIdx (k + 1) es := by omega
      refine ⟨?_, ?_, ?_⟩
      · intro hmem
        rcases List.mem_cons.mp hmem with heq | hmem'
        · exact absurd heq (by omega)
        · exact h1 hmem'
      · rw [List.filter_cons, if_pos (decide_eq_true (le_of_lt hed))]
        simp only [List.length_cons]
        push_cast
        omega
      · omega
    · have hstep : shiftStep k e = k := if_neg he
      rw [shiftIdx_cons, hstep]
      have hke : k < e := not_le.mp he
      have hall : ∀ x ∈ es, k < x := fun x hx => lt_trans hke (hhead x hx)
      rw [shiftIdx_all_gt hall]
      refine ⟨?_, ?_, le_refl k⟩
      · intro hmem
        rcases List.mem_cons.mp hmem with heq | hmem'
        · omega
        · exact absurd (hall k hmem') (lt_irrefl k)
      · rw [List.filter_cons, if_neg (by simpa using he)]
        have hnil : es.filter (fun x => decide (x ≤ k)) = [] := by
          rw [List.filter_eq_nil_iff]
          intro a ha
          have := hall a ha
          simp
          omega
        rw [hnil]
        simp

/-- Python `sorted` is the identity on an already strictly sorted list. -/
lemma sortInt_eq_of_sorted : ∀ {E : List Int},
    List.Pairwise (· < ·) E → sortInt E = E := by
  intro E
  induction E with
  | nil => intro _; rfl
  | cons a E ih =>
    intro hp
    rw [List.pairwise_cons] at hp
    have hE : sortInt E = E := ih hp.2
    show insertSorted a (sortInt E) = a :: E
    rw [hE]
    cases E with
    | nil => rfl
    | cons b E2 =>
      unfold insertSorted
      rw [if_pos (le_of_lt (hp.1 b (List.mem_cons_self b E2)))]

/-- Counting non-excluded indices below a non-excluded `d` in terms of the
number of exclusions at or below `d`. -/
lemma countBelow_formula (d : Int) (E : List Int) (h0 : 0 ≤ d) (hnd : d ∉ E)
    (hnodup : E.Nodup) (hpos : ∀ e ∈ E, 0 ≤ e) :
    (countBelow d E : Int) = d - ((E.filter (fun e => e ≤ d)).length : Int) := by
  have hIcoCard : (Finset.Ico (0 : Int) d).card = d.toNat := by
    rw [Int.card_Ico]
    simp
  have hmemEq : (Finset.Ico (0 : Int) d).filter (fun x => x ∈ E)
      = (E.filter (fun e => e ≤ d)).toFinset := by
    ext x
    simp only [Finset.mem_filter, Finset.mem_Ico, List.mem_toFinset, List.mem_filter,
      decide_eq_true_eq]
    constructor
    · rintro ⟨⟨hx0, hxd⟩, hxE⟩
      exact ⟨hxE, le_of_lt hxd⟩
    · rintro ⟨hxE, hxd⟩
      exact ⟨⟨hpos x hxE, lt_of_le_of_ne hxd (fun hc => hnd (hc ▸ hxE))⟩, hxE⟩
  have hmemcard : ((Finset.Ico (0 : Int) d).filter (fun x => x ∈ E)).card
      = (E.filter (fun e => e ≤ d)).length := by
    rw [hmemEq, List.toFinset_card_of_nodup (hnodup.filter _)]
  have hsplit := Finset.filter_card_add_filter_neg_card_eq_card
    (s := Finset.Ico (0 : Int) d) (p := fun x => x ∈ E)
  unfold countBelow
  rw [hmemcard] at hsplit
  rw [hIcoCard] at hsplit
  have hgoal : ((Finset.Ico (0 : Int) d).filter (fun x => x ∉ E)).card
      = d.toNat - (E.filter (fun e => e ≤ d)).length := by omega
  rw [hgoal]
  have hle : (E.filter (fun e => e ≤ d)).length ≤ d.toNat := by omega
  omega

/-- The survivor count strictly increases past a surviving index. -/
lemma countBelow_strict_mono (E : List Int) (d1 d2 : Int) (h0 : 0 ≤ d1)
    (h12 : d1 < d2) (hnd : d1 ∉ E) : countBelow d1 E < countBelow d2 E := by
  unfold countBelow
  apply Finset.card_lt_card
  rw [Finset.ssubset_iff_of_subset
    (Finset.filter_subset_filter _ (Finset.Ico_subset_Ico le_rfl (le_of_lt h12)))]
  refine ⟨d1, Finset.mem_filter.mpr ⟨Finset.mem_Ico.mpr ⟨h0, h12⟩, hnd⟩, ?_⟩
  intro hmem
  exact absurd (Finset.mem_Ico.mp (Finset.mem_filter.mp hmem).1).2 (lt_irrefl d1)

/-- C1: pick-to-index translation is exact.  For a decimated set of size `N`
and a valid (strictly sorted, in-range) exclusion set `E`, the loop of
`picker_callback` sends a visible index `k < N - |E|` to the unique
non-excluded decimated index `d < N` with exactly `k` non-excluded indices
below it; and in the §8.5 scenario (N = 10, E = {2, 5}) visible 0 maps to 0,
visible 2 maps to 3, after which the exclusion set is {2, 3, 5} and 7 points
remain visible. -/
theorem picker_translation_exact (N : Nat) (E : List Int) (k : Int)
    (hsort : List.Pairwise (· < ·) E)
    (hrange : ∀ e ∈ E, 0 ≤ e ∧ e < (N : Int))
    (hk0 : 0 ≤ k) (hk : k < (N : Int) - E.length) :
    (0 ≤ shiftIdx k (sortInt E) ∧ shiftIdx k (sortInt E) < (N : Int)) ∧
    shiftIdx k (sortInt E) ∉ E ∧
    (countBelow (shiftIdx k (sortInt E)) E : Int) = k ∧
    (∀ d : Int, 0 ≤ d → d ∉ E → (countBelow d E : Int) = k →
      d = shiftIdx k (sortInt E)) ∧
    (shiftIdx 0 (sortInt [2, 5]) = 0 ∧ shiftIdx 2 (sortInt [2, 5]) = 3 ∧
     (picker_callback dec10 s25 2).1.exclude = [2, 3, 5] ∧
     (picker_callback dec10 s25 2).1.points.length = 7) := by
  rw [sortInt_eq_of_sorted hsort]
  obtain ⟨h1, h2, h3⟩ := shiftIdx_spec E hsort k
  have hnodup : E.Nodup := hsort.imp (fun hab => ne_of_lt hab)
  have hpos : ∀ e ∈ E, 0 ≤ e := fun e he => (hrange e he).1
  have hfle : (E.filter (fun e => e ≤ shiftIdx k E)).length ≤ E.length :=
    List.length_filter_le _ _
  have hd0 : 0 ≤ shiftIdx k E := le_trans hk0 h3
  have hdN : shiftIdx k E < (N : Int) := by omega
  have hcount : (countBelow (shiftIdx k E) E : Int) = k := by
    rw [countBelow_formula (shiftIdx k E) E hd0 h1 hnodup hpos]
    omega
  refine ⟨⟨hd0, hdN⟩, h1, hcount, ?_, by decide⟩
  intro d hdpos hdnm hdc
  rcases lt_trichotomy d (shiftIdx k E) with hlt | heq | hgt
  · have := countBelow_strict_mono E d (shiftIdx k E) hdpos hlt hdnm
    omega
  · exact heq
  · have := countBelow_strict_mono E (shiftIdx k E) d hd0 hgt h1
    omega

/-- Witness for C1 at N = 10, E = {2, 5}, k = 2. -/
theorem picker_translation_exact_witness :
    (0 ≤ shiftIdx 2 (sortInt [2, 5]) ∧ shiftIdx 2 (sortInt [2, 5]) < ((10 : Nat) : Int)) ∧
    shiftIdx 2 (sortInt [2, 5]) ∉ [(2 : Int), 5] ∧
    (countBelow (shiftIdx 2 (sortInt [2, 5])) [2, 5] : Int) = 2 ∧
    (∀ d : Int, 0 ≤ d → d ∉ [(2 : Int), 5] → (countBelow d [2, 5] : Int) = 2 →
      d = shiftIdx 2 (sortInt [2, 5])) ∧
    (shiftIdx 0 (sortInt [2, 5]) = 0 ∧ shiftIdx 2 (sortInt [2, 5]) = 3 ∧
     (picker_callback dec10 s25 2).1.exclude = [2, 3, 5] ∧
     (picker_callback dec10 s25 2).1.points.length = 7) :=
  picker_translation_exact 10 [2, 5] 2 (by decide) (by decide) (by decide)
    (by decide)

/-- Association-list lookup hits the most recent binding for its key. -/
lemma lookup_cons_self {β : Type} (k : Nat) (v : β) (l : List (Nat × β)) :
    List.lookup k ((k, v) :: l) = some v := by
  simp [List.lookup]

/-- Association-list lookup skips bindings for other keys. -/
lemma lookup_cons_ne {β : Type} (a k : Nat) (v : β) (l : List (Nat × β))
    (h : a ≠ k) : List.lookup a ((k, v) :: l) = List.lookup a l := by
  simp [List.lookup, beq_eq_false_iff_ne.mpr h]

/-- The invariant only mentions the log through membership, so it survives
any extension of the log. -/
lemma LoadInv.mono {dec : List Pt → Nat → List Pt} {new : List Pt}
    {lg lg' : CallLog} {s : HeadShape} (h : LoadInv dec new lg s)
    (hsub : ∀ e ∈ lg, e ∈ lg') : LoadInv dec new lg' s := by
  obtain ⟨h1, h2, h3, h4⟩ := h
  exact ⟨h1, h2, h3, fun ρ v hv => ⟨(h4 ρ v hv).1, hsub _ (h4 ρ v hv).2⟩⟩

/-- `getDecTotal` preserves the load invariant (logging what it adds) and
returns the decimation of the new cloud. -/
lemma getDecTotal_inv {dec : List Pt → Nat → List Pt} {new : List Pt}
    {lg : CallLog} {s : HeadShape} (res : Nat) (h : LoadInv dec new lg s) :
    LoadInv dec new (lg ++ (getDecTotal dec s res).2.2) (getDecTotal dec s res).1 ∧
    (getDecTotal dec s res).2.1 = dec new res ∧
    (getDecTotal dec s res).1.ref_points = s.ref_points ∧
    (getDecTotal dec s res).1.resolution = s.resolution ∧
    (getDecTotal dec s res).1.exclude = s.exclude ∧
    (getDecTotal dec s res).1.excludeMap = s.excludeMap ∧
    (getDecTotal dec s res).1.points = s.points ∧
    (getDecTotal dec s res).1.n_points_all = s.n_points_all := by
  obtain ⟨hh, hl, hm, hc⟩ := h
  subst hh
  rcases hlk : List.lookup res s.cache with _ | v
  · have hg : getDecTotal dec s res =
        ({ s with cache := (res, dec s.hsp_points res) :: s.cache },
          dec s.hsp_points res, [(s.hsp_points, res)]) := by
      simp only [getDecTotal, hlk]
    rw [hg]
    refine ⟨⟨rfl, hl, hm, ?_⟩, rfl, rfl, rfl, rfl, rfl, rfl, rfl⟩
    intro ρ w hw
    by_cases hρ : ρ = res
    · subst hρ
      rw [lookup_cons_self] at hw
      cases hw
      exact ⟨rfl, List.mem_append_right _ (by simp)⟩
    · rw [lookup_cons_ne _ _ _ _ hρ] at hw
      exact ⟨(hc ρ w hw).1, List.mem_append_left _ (hc ρ w hw).2⟩
  · have hv := hc res v hlk
    have hg : getDecTotal dec s res = (s, v, []) := by
      simp only [getDecTotal, hlk]
    rw [hg]
    refine ⟨⟨rfl, hl, hm, ?_⟩, ?_, rfl, rfl, rfl, rfl, rfl, rfl⟩
    · intro ρ w hw
      exact ⟨(hc ρ w hw).1, List.mem_append_left _ (hc ρ w hw).2⟩
    · exact hv.1

/-- `lookupD` at the key just inserted. -/
lemma lookupD_cons_self (k : Nat) (v : List Int) (l : List (Nat × List Int))
    (d : List Int) : lookupD ((k, v) :: l) k d = v := by
  unfold lookupD
  rw [lookup_cons_self]

/-- `lookupD` skips bindings for other keys. -/
lemma lookupD_cons_ne (a k : Nat) (v : List Int) (l : List (Nat × List Int))
    (d : List Int) (h : a ≠ k) : lookupD ((k, v) :: l) a d = lookupD l a d := by
  unfold lookupD
  rw [lookup_cons_ne _ _ _ _ h]

/-- `update_points` preserves the load invariant and all the fields it does
not recompute. -/
lemma update_points_inv {dec : List Pt → Nat → List Pt} {new : List Pt}
    {lg : CallLog} {s : HeadShape} (h : LoadInv dec new lg s) :
    LoadInv dec new (lg ++ (update_points dec s).2) (update_points dec s).1 ∧
    (update_points dec s).1.ref_points = s.ref_points ∧
    (update_points dec s).1.resolution = s.resolution ∧
    (update_points dec s).1.exclude = s.exclude ∧
    (update_points dec s).1.excludeMap = s.excludeMap := by
  obtain ⟨hinv, _, href, hres, hexc, hmap, _, _⟩ := getDecTotal_inv s.resolution h
  exact ⟨⟨hinv.1, hinv.2.1, hinv.2.2.1, hinv.2.2.2⟩, href, hres, hexc, hmap⟩

/-- Assigning an empty `exclude` list in a loaded state preserves the load
invariant (the handler stores only an empty list). -/
lemma set_exclude_nil_inv {dec : List Pt → Nat → List Pt} {new : List Pt}
    {lg : CallLog} {s : HeadShape} (h : LoadInv dec new lg s) :
    LoadInv dec new (lg ++ (set_exclude dec s []).2) (set_exclude dec s []).1 ∧
    (set_exclude dec s []).1.ref_points = s.ref_points := by
  by_cases he : ([] : List Int) = s.exclude
  · have hg : set_exclude dec s [] = ({ s with exclude := [] }, []) := by
      unfold set_exclude
      rw [if_pos he]
    rw [hg]
    refine ⟨⟨h.1, h.2.1, h.2.2.1, ?_⟩, rfl⟩
    intro ρ v hv
    have hold := h.2.2.2 ρ v hv
    rw [List.append_nil]
    exact hold
  · have hg : set_exclude dec s [] = exclude_changed dec { s with exclude := [] } := by
      unfold set_exclude
      rw [if_neg he, h.2.1]
      simp
    have hg2 : exclude_changed dec { s with exclude := ([] : List Int) } = update_points dec { s with exclude := [], excludeMap := (s.resolution, []) :: s.excludeMap } := rfl
    rw [hg, hg2]
    have hinv2 : LoadInv dec new lg { s with exclude := ([] : List Int), excludeMap := (s.resolution, ([] : List Int)) :: s.excludeMap } := by
      refine ⟨h.1, h.2.1, ?_, h.2.2.2⟩
      intro ρ
      by_cases hρ : ρ = s.resolution
      · subst hρ
        exact lookupD_cons_self _ _ _ _
      · rw [lookupD_cons_ne _ _ _ _ _ hρ]
        exact h.2.2.1 ρ
    obtain ⟨hinv3, href3, _, _, _⟩ := update_points_inv hinv2
    exact ⟨hinv3, href3⟩

/-- `update_base_points` preserves the load invariant (it re-assigns the
stored — empty — exclusion list and recomputes the points). -/
lemma update_base_points_inv {dec : List Pt → Nat → List Pt} {new : List Pt}
    {lg : CallLog} {s : HeadShape} (h : LoadInv dec new lg s) :
    LoadInv dec new (lg ++ (update_base_points dec s).2)
      (update_base_points dec s).1 ∧
    (update_base_points dec s).1.ref_points = s.ref_points := by
  have hst : lookupD s.excludeMap s.resolution [] = [] := h.2.2.1 s.resolution
  have hg : update_base_points dec s =
      ((update_points dec (set_exclude dec s []).1).1,
        (set_exclude dec s []).2 ++
          (update_points dec (set_exclude dec s []).1).2) := by
    unfold update_base_points
    rw [hst]
  rw [hg]
  obtain ⟨hinv1, href1⟩ := set_exclude_nil_inv h
  obtain ⟨hinv2, href2, _, _, _⟩ := update_points_inv hinv1
  constructor
  · rw [← List.append_assoc]
    exact hinv2
  · exact href2.trans href1

/-- A successful load establishes the load invariant for the final state and
its full provider log, and installs the reference points decimated from the
new cloud. -/
lemma loadOk_spec (dec : List Pt → Nat → List Pt) (s : HeadShape)
    (new : List Pt) :
    LoadInv dec new (loadOk dec s new).2 (loadOk dec s new).1 ∧
    (loadOk dec s new).1.ref_points = dec new 10 := by
  have h1 : LoadInv dec new [] { s with loaded := true, cache := [], excludeMap := [], hsp_points := new } :=
    ⟨rfl, rfl, fun _ => rfl, fun _ v hv => Option.noConfusion hv⟩
  obtain ⟨hinv2, hpts2, _, _, _, _, _, _⟩ := getDecTotal_inv 10 h1
  rw [List.nil_append] at hinv2
  have h2 : LoadInv dec new (getDecTotal dec { s with loaded := true, cache := [], excludeMap := [], hsp_points := new } 10).2.2 { (getDecTotal dec { s with loaded := true, cache := [], excludeMap := [], hsp_points := new } 10).1 with ref_points := (getDecTotal dec { s with loaded := true, cache := [], excludeMap := [], hsp_points := new } 10).2.1 } := hinv2
  obtain ⟨hinv3, href3⟩ := update_base_points_inv h2
  exact ⟨hinv3, href3.trans hpts2⟩

/-- C6: reloading invalidates everything.  After `loadOk` with a new cloud,
the new cloud is installed, the reference set is recomputed from it, every
stored exclusion list is empty, every surviving cache entry was recomputed
from the new cloud, and a `getDecimated(r)` for a resolution `r` cached
under the old cloud returns the new cloud's decimation — the provider having
been invoked on the new cloud for `r` either during the load chain or during
that call — and never the old points (whenever those genuinely differ). -/
theorem load_invalidates_all (dec : List Pt → Nat → List Pt) (s : HeadShape)
    (new : List Pt) (r : Nat) (oldPts : List Pt)
    (_hr : List.lookup r s.cache = some oldPts) :
    (loadOk dec s new).1.hsp_points = new ∧
    (loadOk dec s new).1.loaded = true ∧
    (loadOk dec s new).1.ref_points = dec new 10 ∧
    (∀ ρ, lookupD (loadOk dec s new).1.excludeMap ρ [] = []) ∧
    (∀ ρ v, List.lookup ρ (loadOk dec s new).1.cache = some v → v = dec new ρ) ∧
    (getDecTotal dec (loadOk dec s new).1 r).2.1 = dec new r ∧
    (new, r) ∈ (loadOk dec s new).2 ++ (getDecTotal dec (loadOk dec s new).1 r).2.2 ∧
    (dec new r ≠ oldPts → (getDecTotal dec (loadOk dec s new).1 r).2.1 ≠ oldPts) := by
  obtain ⟨hinv, href⟩ := loadOk_spec dec s new
  obtain ⟨hh, hl, hm, hc⟩ := hinv
  refine ⟨hh, hl, href, hm, fun ρ v hv => (hc ρ v hv).1, ?_, ?_, ?_⟩
  · exact (getDecTotal_inv r ⟨hh, hl, hm, hc⟩).2.1
  · rcases hlk : List.lookup r (loadOk dec s new).1.cache with _ | v
    · have hlog : (getDecTotal dec (loadOk dec s new).1 r).2.2 =
          [((loadOk dec s new).1.hsp_points, r)] := by
        simp only [getDecTotal, hlk]
      rw [hlog, hh]
      exact List.mem_append_right _ (by simp)
    · exact List.mem_append_left _ (hc r v hlk).2
  · intro hne
    rw [(getDecTotal_inv r ⟨hh, hl, hm, hc⟩).2.1]
    exact hne

/-- Witness for C6: a state with resolution 20 cached under the old cloud,
reloaded with a different cloud. -/
theorem load_invalidates_all_witness :
    ((loadOk decC7 (getDecTotal dec10 (loadOk dec10 initState pts10).1 20).1
        pts3).1.hsp_points = pts3 ∧
      (loadOk decC7 (getDecTotal dec10 (loadOk dec10 initState pts10).1 20).1
        pts3).1.loaded = true ∧
      (loadOk decC7 (getDecTotal dec10 (loadOk dec10 initState pts10).1 20).1
        pts3).1.ref_points = decC7 pts3 10 ∧
      (∀ ρ, lookupD (loadOk decC7
        (getDecTotal dec10 (loadOk dec10 initState pts10).1 20).1
        pts3).1.excludeMap ρ [] = []) ∧
      (∀ ρ v, List.lookup ρ (loadOk decC7
          (getDecTotal dec10 (loadOk dec10 initState pts10).1 20).1
          pts3).1.cache = some v → v = decC7 pts3 ρ) ∧
      (getDecTotal decC7 (loadOk decC7
        (getDecTotal dec10 (loadOk dec10 initState pts10).1 20).1
        pts3).1 20).2.1 = decC7 pts3 20 ∧
      (pts3, 20) ∈ (loadOk decC7
          (getDecTotal dec10 (loadOk dec10 initState pts10).1 20).1 pts3).2 ++
        (getDecTotal decC7 (loadOk decC7
          (getDecTotal dec10 (loadOk dec10 initState pts10).1 20).1
          pts3).1 20).2.2 ∧
      (decC7 pts3 20 ≠ pts10 → (getDecTotal decC7 (loadOk decC7
        (getDecTotal dec10 (loadOk dec10 initState pts10).1 20).1
        pts3).1 20).2.1 ≠ pts10)) :=
  load_invalidates_all decC7
    (getDecTotal dec10 (loadOk dec10 initState pts10).1 20).1 pts3 20 pts10
    (by decide)

/-- Fancy indexing by in-bound positions returns one entry per position. -/
lemma selectIdx_length {α : Type} (l : List α) : ∀ (idx : List Nat),
    (∀ k ∈ idx, k < l.length) → (selectIdx l idx).length = idx.length := by
  intro idx
  induction idx with
  | nil => intro _; rfl
  | cons k ks ih =>
    intro h
    have hk : k < l.length := h k (List.mem_cons_self _ _)
    have hg : l.get? k = some (l.get ⟨k, hk⟩) := List.get?_eq_get hk
    have hih := ih (fun x hx => h x (List.mem_cons_of_mem _ hx))
    simp only [selectIdx, List.filterMap_cons, hg, List.length_cons]
    simp only [selectIdx] at hih
    rw [hih]

/-- Fancy indexing into the tail through successor positions. -/
lemma selectIdx_cons_mapSucc {α : Type} (a : α) (l : List α) (idx : List Nat) :
    selectIdx (a :: l) (idx.map Nat.succ) = selectIdx l idx := by
  unfold selectIdx
  rw [List.filterMap_map]
  rfl

/-- Fancy indexing by an increasing position filter is a sublist: surviving
entries keep their original relative order. -/
lemma selectIdx_range_filter_sublist {α : Type} :
    ∀ (l : List α) (p : Nat → Bool),
      List.Sublist (selectIdx l ((List.range l.length).filter p)) l := by
  intro l
  induction l with
  | nil => intro p; simp [selectIdx]
  | cons a l ih =>
    intro p
    rw [List.length_cons, List.range_succ_eq_map, List.filter_cons]
    by_cases h0 : p 0 = true
    · rw [if_pos h0]
      have hsel : selectIdx (a :: l)
          (0 :: ((List.range l.length).map Nat.succ).filter p)
          = a :: selectIdx (a :: l)
              (((List.range l.length).map Nat.succ).filter p) := rfl
      rw [hsel, List.filter_map, selectIdx_cons_mapSucc]
      exact List.cons_sublist_cons.mpr (ih _)
    · rw [if_neg h0, List.filter_map, selectIdx_cons_mapSucc]
      exact List.Sublist.cons _ (ih _)

/-- Membership through fancy indexing. -/
lemma mem_selectIdx {α : Type} (l : List α) (idx : List Nat) (x : α) :
    x ∈ selectIdx l idx ↔ ∃ k ∈ idx, l.get? k = some x := by
  unfold selectIdx
  rw [List.mem_filterMap]

/-- `list.index` finds its argument. -/
lemma get_indexOfName : ∀ (l : List String) (c : String), c ∈ l →
    l.get? (indexOfName l c) = some c := by
  intro l
  induction l with
  | nil => intro c hc; cases hc
  | cons a l ih =>
    intro c hc
    unfold indexOfName
    by_cases hac : a = c
    · rw [if_pos hac, hac]
      rfl
    · rw [if_neg hac, List.get?_cons_succ]
      apply ih
      rcases List.mem_cons.mp hc with h | h
      · exact absurd h.symm hac
      · exact h

/-- `list.index` stays in bounds on a present element. -/
lemma indexOfName_lt_length : ∀ (l : List String) (c : String), c ∈ l →
    indexOfName l c < l.length := by
  intro l
  induction l with
  | nil => intro c hc; cases hc
  | cons a l ih =>
    intro c hc
    unfold indexOfName
    by_cases hac : a = c
    · rw [if_pos hac]
      simp
    · rw [if_neg hac, List.length_cons]
      have : c ∈ l := by
        rcases List.mem_cons.mp hc with h | h
        · exact absurd h.symm hac
        · exact h
      exact Nat.succ_lt_succ (ih c this)

/-- Positions in a duplicate-free list are determined by their entry. -/
lemma get?_inj_nodup {α : Type} : ∀ (l : List α), l.Nodup →
    ∀ (i j : Nat) (x : α), l.get? i = some x → l.get? j = some x → i = j := by
  intro l
  induction l with
  | nil => intro _ i j x hi _; exact Option.noConfusion hi
  | cons a l ih =>
    intro hn i j x hi hj
    rw [List.nodup_cons] at hn
    cases i with
    | zero =>
      cases j with
      | zero => rfl
      | succ j =>
        cases hi
        rw [List.get?_cons_succ] at hj
        exact absurd (List.get?_mem hj) hn.1
    | succ i =>
      cases j with
      | zero =>
        cases hj
        rw [List.get?_cons_succ] at hi
        exact absurd (List.get?_mem hi) hn.1
      | succ j =>
        rw [List.get?_cons_succ] at hi hj
        exact congrArg Nat.succ (ih hn.2 i j x hi hj)

/-- The `all contains` guard of `drop_channels` in terms of membership. -/
lemma all_contains_iff (names chNames : List String) :
    (names.all (fun c => chNames.contains c) = true) ↔
      ∀ c ∈ names, c ∈ chNames := by
  rw [List.all_eq_true]
  constructor
  · intro h c hc
    have := h c hc
    simpa [List.contains] using this
  · intro h c hc
    simpa [List.contains] using h c hc

/-- Every surviving position is in bounds. -/
lemma survivingIdx_lt (names dropNames : List String) :
    ∀ k ∈ survivingIdx names dropNames, k < names.length := by
  intro k hk
  have hk2 : k ∈ (List.range names.length).filter
      (fun j => !((dropNames.map (indexOfName names)).contains j)) := hk
  exact List.mem_range.mp (List.mem_filter.mp hk2).1

/-- C10: `drop_channels` keeps the surviving channels in their original
relative order and applies the one surviving-position selection consistently
to the channel info, the picks, both axes of the projector, and the channel
axis of the (Raw/Evoked channel-major and Epochs epoch-major) data, so each
channel dimension afterwards equals the new number of channels; a request
naming an absent channel fails with an error before any state is modified. -/
theorem drop_channels_consistent (inst : MObj) (names : List String) :
    ((∀ c ∈ names, c ∈ inst.chNames) →
      drop_channels inst names = Except.ok (dropCore inst names) ∧
      List.Sublist (dropCore inst names).chNames inst.chNames ∧
      (dropCore inst names).chNames.length
        = (survivingIdx inst.chNames names).length ∧
      (∀ p, inst.picks = some p → p.length = inst.chNames.length →
        ∃ q, (dropCore inst names).picks = some q ∧
          q.length = (dropCore inst names).chNames.length) ∧
      (∀ P, inst.projector = some P → P.length = inst.chNames.length →
        (∀ row ∈ P, row.length = inst.chNames.length) →
        ∃ Q, (dropCore inst names).projector = some Q ∧
          Q.length = (dropCore inst names).chNames.length ∧
          ∀ row ∈ Q, row.length = (dropCore inst names).chNames.length) ∧
      (∀ D, inst.data = some D → D.length = inst.chNames.length →
        ∃ E, (dropCore inst names).data = some E ∧
          E.length = (dropCore inst names).chNames.length) ∧
      (∀ Ds, inst.epochsData = some Ds →
        (∀ ep ∈ Ds, ep.length = inst.chNames.length) →
        ∃ Es, (dropCore inst names).epochsData = some Es ∧
          Es.length = Ds.length ∧
          ∀ ep ∈ Es, ep.length = (dropCore inst names).chNames.length)) ∧
    ((∃ c ∈ names, c ∉ inst.chNames) →
      drop_channels inst names = Except.error ChErr.nameNotFound) := by
  have hlt := survivingIdx_lt inst.chNames names
  have hchlen : (dropCore inst names).chNames.length
      = (survivingIdx inst.chNames names).length :=
    selectIdx_length inst.chNames _ hlt
  constructor
  · intro hall
    refine ⟨?_, ?_, hchlen, ?_, ?_, ?_, ?_⟩
    · unfold drop_channels
      rw [if_pos ((all_contains_iff _ _).mpr hall)]
    · exact selectIdx_range_filter_sublist inst.chNames _
    · intro p hp hlen
      refine ⟨selectIdx p (survivingIdx inst.chNames names), ?_, ?_⟩
      · simp [dropCore, hp]
      · rw [hchlen]
        exact selectIdx_length p _ (fun k hk => by rw [hlen]; exact hlt k hk)
    · intro P hP hPlen hProws
      refine ⟨(selectIdx P (survivingIdx inst.chNames names)).map
          (fun row => selectIdx row (survivingIdx inst.chNames names)), ?_, ?_, ?_⟩
      · simp [dropCore, hP]
      · rw [List.length_map, hchlen]
        exact selectIdx_length P _ (fun k hk => by rw [hPlen]; exact hlt k hk)
      · intro row hrow
        rw [List.mem_map] at hrow
        obtain ⟨row0, hrow0, hroweq⟩ := hrow
        have hmem : row0 ∈ P := by
          rw [mem_selectIdx] at hrow0
          obtain ⟨k, _, hk⟩ := hrow0
          exact List.get?_mem hk
        rw [← hroweq, hchlen]
        exact selectIdx_length row0 _
          (fun k hk => by rw [hProws row0 hmem]; exact hlt k hk)
    · intro D hD hDlen
      refine ⟨selectIdx D (survivingIdx inst.chNames names), ?_, ?_⟩
      · simp [dropCore, hD]
      · rw [hchlen]
        exact selectIdx_length D _ (fun k hk => by rw [hDlen]; exact hlt k hk)
    · intro Ds hDs hrows
      refine ⟨Ds.map (fun ep => selectIdx ep (survivingIdx inst.chNames names)),
        ?_, ?_, ?_⟩
      · simp [dropCore, hDs]
      · exact List.length_map _ _
      · intro ep hep
        rw [List.mem_map] at hep
        obtain ⟨ep0, hep0, hepeq⟩ := hep
        rw [← hepeq, hchlen]
        exact selectIdx_length ep0 _
          (fun k hk => by rw [hrows ep0 hep0]; exact hlt k hk)
  · rintro ⟨c, hc, hnc⟩
    unfold drop_channels
    rw [if_neg]
    intro hcon
    exact hnc ((all_contains_iff _ _).mp hcon c hc)

/-- Witness for C10: dropping channel b from a three-channel object, and a
request for an absent channel z. -/
theorem drop_channels_consistent_witness :
    (drop_channels mobjA ["b"] = Except.ok (dropCore mobjA ["b"]) ∧
     List.Sublist (dropCore mobjA ["b"]).chNames mobjA.chNames ∧
     (dropCore mobjA ["b"]).chNames.length
       = (survivingIdx mobjA.chNames ["b"]).length ∧
     (∀ p, mobjA.picks = some p → p.length = mobjA.chNames.length →
       ∃ q, (dropCore mobjA ["b"]).picks = some q ∧
         q.length = (dropCore mobjA ["b"]).chNames.length) ∧
     (∀ P, mobjA.projector = some P → P.length = mobjA.chNames.length →
       (∀ row ∈ P, row.length = mobjA.chNames.length) →
       ∃ Q, (dropCore mobjA ["b"]).projector = some Q ∧
         Q.length = (dropCore mobjA ["b"]).chNames.length ∧
         ∀ row ∈ Q, row.length = (dropCore mobjA ["b"]).chNames.length) ∧
     (∀ D, mobjA.data = some D → D.length = mobjA.chNames.length →
       ∃ E, (dropCore mobjA ["b"]).data = some E ∧
         E.length = (dropCore mobjA ["b"]).chNames.length) ∧
     (∀ Ds, mobjA.epochsData = some Ds →
       (∀ ep ∈ Ds, ep.length = mobjA.chNames.length) →
       ∃ Es, (dropCore mobjA ["b"]).epochsData = some Es ∧
         Es.length = Ds.length ∧
         ∀ ep ∈ Es, ep.length = (dropCore mobjA ["b"]).chNames.length)) ∧
    drop_channels mobjA ["z"] = Except.error ChErr.nameNotFound :=
  ⟨(drop_channels_consistent mobjA ["b"]).1 (by decide),
   (drop_channels_consistent mobjA ["z"]).2 ⟨"z", by decide, by decide⟩⟩

/-- A channel in the common intersection is present in every candidate. -/
lemma inCommon_mem (cands : List MObj) (c : MObj) (hc : c ∈ cands) (n : String)
    (h : inCommon cands n = true) : n ∈ c.chNames := by
  rw [inCommon, List.all_eq_true] at h
  simpa [List.contains] using h c hc

/-- Membership in the channel names surviving `dropCore`, for a candidate
with duplicate-free channel names: exactly the names not requested. -/
lemma mem_dropCore_chNames (c : MObj) (dropNames : List String)
    (hnd : c.chNames.Nodup) (hsub : ∀ x ∈ dropNames, x ∈ c.chNames)
    (n : String) :
    n ∈ (dropCore c dropNames).chNames ↔ n ∈ c.chNames ∧ n ∉ dropNames := by
  have hform : (dropCore c dropNames).chNames
      = selectIdx c.chNames (survivingIdx c.chNames dropNames) := rfl
  have hsv : survivingIdx c.chNames dropNames
      = (List.range c.chNames.length).filter
          (fun j => !((dropNames.map (indexOfName c.chNames)).contains j)) := rfl
  rw [hform, mem_selectIdx]
  constructor
  · rintro ⟨k, hk, hgk⟩
    have hmem : n ∈ c.chNames := List.get?_mem hgk
    refine ⟨hmem, ?_⟩
    intro hdrop
    rw [hsv] at hk
    have hkp := (List.mem_filter.mp hk).2
    have hidx : c.chNames.get? (indexOfName c.chNames n) = some n :=
      get_indexOfName _ _ hmem
    have hkeq : k = indexOfName c.chNames n :=
      get?_inj_nodup _ hnd _ _ _ hgk hidx
    have hin : (dropNames.map (indexOfName c.chNames)).contains k = true := by
      have : k ∈ dropNames.map (indexOfName c.chNames) := by
        rw [hkeq]
        exact List.mem_map_of_mem _ hdrop
      simpa [List.contains] using this
    rw [hin] at hkp
    cases hkp
  · rintro ⟨hmem, hndrop⟩
    refine ⟨indexOfName c.chNames n, ?_, get_indexOfName _ _ hmem⟩
    rw [hsv, List.mem_filter]
    refine ⟨List.mem_range.mpr (indexOfName_lt_length _ _ hmem), ?_⟩
    have hnotin : indexOfName c.chNames n ∉
        dropNames.map (indexOfName c.chNames) := by
      intro hcon
      rw [List.mem_map] at hcon
      obtain ⟨x, hx, hxeq⟩ := hcon
      have hgx : c.chNames.get? (indexOfName c.chNames x) = some x :=
        get_indexOfName _ _ (hsub x hx)
      rw [hxeq, get_indexOfName _ _ hmem] at hgx
      cases hgx
      exact hndrop hx
    simpa [List.contains] using hnotin

/-- The candidate-wise step of `equalize_channels` keeps exactly the common
channels. -/
lemma equalizeOne_chNames (cands : List MObj) (c : MObj) (hc : c ∈ cands)
    (hnd : c.chNames.Nodup) (n : String) :
    n ∈ (equalizeOne cands c).chNames ↔ inCommon cands n = true := by
  have hbool : ∀ b : Bool, ((!b) = true ↔ b = false) := by decide
  by_cases hemp : (c.chNames.filter (fun m => !(inCommon cands m))).isEmpty = true
  · have heq : equalizeOne cands c = c := by
      simp only [equalizeOne]
      rw [if_pos hemp]
    rw [heq]
    have hnil : c.chNames.filter (fun m => !(inCommon cands m)) = [] :=
      List.isEmpty_iff.mp hemp
    constructor
    · intro hmem
      by_contra hcon
      have hfalse : inCommon cands n = false := by
        cases hcn : inCommon cands n
        · rfl
        · exact absurd hcn hcon
      have hnf : n ∈ c.chNames.filter (fun m => !(inCommon cands m)) := by
        rw [List.mem_filter]
        exact ⟨hmem, by rw [hfalse]; rfl⟩
      rw [hnil] at hnf
      cases hnf
    · intro hcom
      exact inCommon_mem cands c hc n hcom
  · have hsubd : ∀ x ∈ c.chNames.filter (fun m => !(inCommon cands m)),
        x ∈ c.chNames := fun x hx => (List.mem_filter.mp hx).1
    have hok : drop_channels c (c.chNames.filter (fun m => !(inCommon cands m)))
        = Except.ok (dropCore c
            (c.chNames.filter (fun m => !(inCommon cands m)))) := by
      unfold drop_channels
      rw [if_pos ((all_contains_iff _ _).mpr hsubd)]
    have heq : equalizeOne cands c
        = dropCore c (c.chNames.filter (fun m => !(inCommon cands m))) := by
      simp only [equalizeOne]
      rw [if_neg hemp, hok]
    rw [heq, mem_dropCore_chNames c _ hnd hsubd n]
    constructor
    · rintro ⟨hmem, hnfil⟩
      cases hcn : inCommon cands n
      · exfalso
        apply hnfil
        rw [List.mem_filter]
        exact ⟨hmem, by rw [hcn]; rfl⟩
      · rfl
    · intro hcom
      refine ⟨inCommon_mem cands c hc n hcom, ?_⟩
      intro hfil
      have hp := (List.mem_filter.mp hfil).2
      rw [hcom] at hp
      cases hp

/-- A candidate whose channels are all common is returned unmodified. -/
lemma equalizeOne_id (cands : List MObj) (c : MObj)
    (h : ∀ n ∈ c.chNames, inCommon cands n = true) :
    equalizeOne cands c = c := by
  have hnil : c.chNames.filter (fun m => !(inCommon cands m)) = [] := by
    rw [List.filter_eq_nil_iff]
    intro a ha
    rw [h a ha]
    simp
  simp [equalizeOne, hnil]

/-- C9: `equalize_channels` computes the common intersection.  For a
non-empty list of valid candidates (unique channel names), the result is one
object per candidate, each holding exactly the common channel names — only
channels outside the intersection are dropped — and a candidate already equal
to the intersection is returned unmodified (the very same object). -/
theorem equalize_channels_intersection (cands : List MObj) (_hne : cands ≠ [])
    (hnd : ∀ c ∈ cands, c.chNames.Nodup) :
    (equalize_channels cands).length = cands.length ∧
    ∀ (i : Nat) (h1 : i < cands.length)
      (h2 : i < (equalize_channels cands).length),
      (∀ n, n ∈ ((equalize_channels cands).get ⟨i, h2⟩).chNames ↔
        inCommon cands n = true) ∧
      ((∀ n ∈ (cands.get ⟨i, h1⟩).chNames, inCommon cands n = true) →
        (equalize_channels cands).get ⟨i, h2⟩ = cands.get ⟨i, h1⟩) := by
  constructor
  · exact List.length_map _ _
  · intro i h1 h2
    have hget : (equalize_channels cands).get ⟨i, h2⟩
        = equalizeOne cands (cands.get ⟨i, h1⟩) := by
      unfold equalize_channels
      exact List.getElem_map _
    have hcmem : cands.get ⟨i, h1⟩ ∈ cands := List.get_mem _ _ _
    rw [hget]
    constructor
    · intro n
      exact equalizeOne_chNames cands _ hcmem (hnd _ hcmem) n
    · intro hall
      exact equalizeOne_id cands _ hall

/-- Witness for C9 on two concrete candidates sharing channels a and c. -/
theorem equalize_channels_intersection_witness :
    (equalize_channels [mobjA, mobjB]).length = [mobjA, mobjB].length ∧
    ∀ (i : Nat) (h1 : i < [mobjA, mobjB].length)
      (h2 : i < (equalize_channels [mobjA, mobjB]).length),
      (∀ n, n ∈ ((equalize_channels [mobjA, mobjB]).get ⟨i, h2⟩).chNames ↔
        inCommon [mobjA, mobjB] n = true) ∧
      ((∀ n ∈ ([mobjA, mobjB].get ⟨i, h1⟩).chNames,
          inCommon [mobjA, mobjB] n = true) →
        (equalize_channels [mobjA, mobjB]).get ⟨i, h2⟩
          = [mobjA, mobjB].get ⟨i, h1⟩) :=
  equalize_channels_intersection [mobjA, mobjB] (by decide) (by decide)
